import Mathlib

/-!
Verification of the SMP-Sea-Ice analysis pipeline.

Shallow embedding of the SMP-Sea-Ice repository (King et al., 2020): the
K-fold OLS recalibration notebook and the `Annex_Matching` profile-alignment
notebook.  Real-valued data is modelled over `ℚ` (the notebooks' float
arithmetic idealised to exact arithmetic); the natural logarithm, applied
pointwise by the code through `np.log`, is carried as an abstract function
parameter where a formula mentions it.
-/

namespace SMPSeaIce

/-! Part 1: the alignment search (`Annex_Matching.ipynb`)

`retrieved_skill` is a table with one row per sampled stretching candidate,
columns `['r','rmse','rmse_corr','mae']`.  The selection cell is

  `min_scaling_idx = retrieved_skill.sort_values(['r','rmse_corr'],
       ascending=[False, True]).head(1).index.values`

i.e. sort by correlation `r` descending, break ties by bias-corrected RMSE
`rmse_corr` ascending, and take the first row. -/

/-- One row of `retrieved_skill`: the goodness-of-fit scores of one sampled
stretching candidate (only the two columns the selection uses). -/
structure Skill where
  r : ℚ
  rmse_corr : ℚ
deriving DecidableEq

/-- The ordering used by `sort_values(['r','rmse_corr'], ascending=[False, True])`:
row `a` comes no later than row `b` iff `a.r > b.r`, or `a.r = b.r` and
`a.rmse_corr ≤ b.rmse_corr`. -/
def skillLE (a b : Skill) : Bool :=
  decide (b.r < a.r ∨ (a.r = b.r ∧ a.rmse_corr ≤ b.rmse_corr))

/-- The sorted `retrieved_skill` table. -/
def sortSkill (skills : List Skill) : List Skill :=
  skills.mergeSort skillLE

/-- Selection `head(1)` of the sorted table: the selected candidate's score row
(`min_scaling_idx` points at this row; `none` when no candidate was sampled). -/
def minScaling (skills : List Skill) : Option Skill :=
  (sortSkill skills).head?

theorem skillLE_trans (a b c : Skill) (hab : skillLE a b = true)
    (hbc : skillLE b c = true) : skillLE a c = true := by
  simp only [skillLE, decide_eq_true_eq] at *
  rcases hab with h1 | ⟨h1, h1'⟩ <;> rcases hbc with h2 | ⟨h2, h2'⟩
  · exact Or.inl (h2.trans h1)
  · exact Or.inl (h2 ▸ h1)
  · exact Or.inl (h1 ▸ h2)
  · exact Or.inr ⟨h1.trans h2, le_trans h1' h2'⟩

theorem skillLE_total (a b : Skill) : (skillLE a b || skillLE b a) = true := by
  simp only [skillLE, Bool.or_eq_true, decide_eq_true_eq]
  rcases lt_trichotomy a.r b.r with h | h | h
  · exact Or.inr (Or.inl h)
  · rcases le_total a.rmse_corr b.rmse_corr with h' | h'
    · exact Or.inl (Or.inr ⟨h, h'⟩)
    · exact Or.inr (Or.inr ⟨h.symm, h'⟩)
  · exact Or.inl (Or.inl h)

/-- C1.  The alignment search's selected stretching candidate is greatest
under the defined ranking (correlation `r` sorted descending, ties broken by
bias-corrected RMSE ascending) among all sampled candidates: for every
candidate `c` in the sampled set, the selected candidate's `(r, rmse_corr)`
is lexicographically at least as good as `c`'s. -/
theorem min_scaling_idx_optimal (skills : List Skill) (h : skills ≠ []) :
    ∃ s, minScaling skills = some s ∧ s ∈ skills ∧
      ∀ c ∈ skills, c.r < s.r ∨ (c.r = s.r ∧ s.rmse_corr ≤ c.rmse_corr) := by
  have hperm : (sortSkill skills).Perm skills := List.mergeSort_perm skills skillLE
  have hsorted : List.Pairwise (fun a b => skillLE a b = true) (sortSkill skills) :=
    List.sorted_mergeSort skillLE_trans skillLE_total skills
  cases hsort : sortSkill skills with
  | nil =>
      exfalso
      exact h (List.Perm.eq_nil (hsort ▸ hperm).symm)
  | cons s rest =>
      refine ⟨s, ?_, ?_, ?_⟩
      · show (sortSkill skills).head? = some s
        rw [hsort]
        rfl
      · exact hperm.mem_iff.mp (by rw [hsort]; exact List.mem_cons_self s rest)
      · intro c hc
        have hc' : c ∈ sortSkill skills := hperm.mem_iff.mpr hc
        rw [hsort] at hc' hsorted
        rcases List.mem_cons.mp hc' with rfl | htail
        · exact Or.inr ⟨rfl, le_refl _⟩
        · have hle := (List.pairwise_cons.mp hsorted).1 c htail
          simp only [skillLE, decide_eq_true_eq] at hle
          rcases hle with h1 | ⟨h1, h2⟩
          · exact Or.inl h1
          · exact Or.inr ⟨h1.symm, h2⟩

/-- Concrete check of `min_scaling_idx_optimal`: among candidates with scores
`(r, rmse_corr)` of `(1, 2)`, `(3, 7)`, `(3, 1)`, the selected candidate is
`(3, 1)` and it beats every other candidate under the ranking. -/
theorem min_scaling_idx_optimal_w :
    ∃ s, minScaling [⟨1, 2⟩, ⟨3, 7⟩, ⟨3, 1⟩] = some s ∧
      s ∈ ([⟨1, 2⟩, ⟨3, 7⟩, ⟨3, 1⟩] : List Skill) ∧
      ∀ c ∈ ([⟨1, 2⟩, ⟨3, 7⟩, ⟨3, 1⟩] : List Skill),
        c.r < s.r ∨ (c.r = s.r ∧ s.rmse_corr ≤ c.rmse_corr) :=
  min_scaling_idx_optimal [⟨1, 2⟩, ⟨3, 7⟩, ⟨3, 1⟩] (by decide)

/-! Part 2: the K-fold split (`KFold(n_splits=10, shuffle=True, random_state=RANDOM_SEED)`)

`k_fold.split(result)` shuffles `arange(n)` into a permutation `shuffled` and
cuts it into 10 contiguous slices; fold `k` has size `n // 10 + 1` when
`k < n % 10` and `n // 10` otherwise.  The test indices of fold `k` are the
values in slice `k`; the train indices are `arange(n)` with the test indices
masked out. -/

/-- Size of fold `k` out of 10 for `n` samples (sklearn `KFold`). -/
def foldSize (n k : ℕ) : ℕ := n / 10 + if k < n % 10 then 1 else 0

/-- Start offset of fold `k`'s slice in the shuffled index array. -/
def foldStart (n k : ℕ) : ℕ := k * (n / 10) + min k (n % 10)

/-- Test indices of fold `k`: slice `k` of the shuffled index array. -/
def testFold (shuffled : List ℕ) (n k : ℕ) : List ℕ :=
  (shuffled.drop (foldStart n k)).take (foldSize n k)

/-- Train indices of fold `k`: `arange(n)` with the test indices masked out. -/
def trainFold (shuffled : List ℕ) (n k : ℕ) : List ℕ :=
  (List.range n).filter (fun i => decide (i ∉ testFold shuffled n k))

theorem foldStart_succ (n k : ℕ) :
    foldStart n (k + 1) = foldStart n k + foldSize n k := by
  unfold foldStart foldSize
  rw [Nat.succ_mul]
  by_cases h : k < n % 10
  · rw [if_pos h]
    omega
  · rw [if_neg h]
    omega

theorem foldStart_ten (n : ℕ) : foldStart n 10 = n := by
  unfold foldStart
  omega

theorem flatten_testFold (shuffled : List ℕ) (n m : ℕ) :
    ((List.range m).map (fun k => testFold shuffled n k)).flatten
      = shuffled.take (foldStart n m) := by
  induction m with
  | zero => simp [foldStart]
  | succ m ih =>
      rw [List.range_succ, List.map_append, List.flatten_append, ih]
      simp only [List.map_cons, List.map_nil, List.flatten_cons, List.flatten_nil,
        List.append_nil]
      rw [foldStart_succ, List.take_add]
      rfl

theorem flatten_testFold_ten (shuffled : List ℕ) (n : ℕ)
    (hlen : shuffled.length = n) :
    ((List.range 10).map (fun k => testFold shuffled n k)).flatten = shuffled := by
  rw [flatten_testFold, foldStart_ten, ← hlen, List.take_length]

/-- C2.  The 10-fold partitioning assigns every input row to exactly one test
fold: the ten test index sets are pairwise disjoint, their union is the full
row-index set `{0, …, n-1}`, and in each fold the training set is exactly the
complement of the test set. -/
theorem k_fold_partition (n : ℕ) (shuffled : List ℕ)
    (hperm : shuffled.Perm (List.range n)) (hn : 10 ≤ n) :
    (∀ k1 k2, k1 < 10 → k2 < 10 → k1 ≠ k2 →
      ∀ x ∈ testFold shuffled n k1, x ∉ testFold shuffled n k2) ∧
    (∀ x, x < n ↔ ∃ k, k < 10 ∧ x ∈ testFold shuffled n k) ∧
    (∀ k x, x ∈ trainFold shuffled n k ↔ x < n ∧ x ∉ testFold shuffled n k) := by
  have hlen : shuffled.length = n := by
    have := hperm.length_eq
    simpa using this
  have hflat := flatten_testFold_ten shuffled n hlen
  have hnodup : shuffled.Nodup := hperm.nodup_iff.mpr (List.nodup_range n)
  have hflatnodup : ((List.range 10).map (fun k => testFold shuffled n k)).flatten.Nodup := by
    rw [hflat]; exact hnodup
  have hpair : List.Pairwise List.Disjoint
      ((List.range 10).map (fun k => testFold shuffled n k)) :=
    (List.nodup_flatten.mp hflatnodup).2
  have hpair' : List.Pairwise
      (fun a b => (testFold shuffled n a).Disjoint (testFold shuffled n b))
      (List.range 10) := List.pairwise_map.mp hpair
  have hdisj : ∀ k1 k2, k1 < 10 → k2 < 10 → k1 < k2 →
      (testFold shuffled n k1).Disjoint (testFold shuffled n k2) := by
    intro k1 k2 h1 h2 hlt
    rw [List.pairwise_iff_getElem] at hpair'
    have := hpair' k1 k2 (by simpa using h1) (by simpa using h2) hlt
    simpa using this
  refine ⟨?_, ?_, ?_⟩
  · intro k1 k2 h1 h2 hne x hx1 hx2
    rcases Nat.lt_or_ge k1 k2 with hlt | hge
    · exact hdisj k1 k2 h1 h2 hlt hx1 hx2
    · have hlt : k2 < k1 := lt_of_le_of_ne hge (fun h => hne h.symm)
      exact hdisj k2 k1 h2 h1 hlt hx2 hx1
  · intro x
    constructor
    · intro hx
      have hxs : x ∈ shuffled := hperm.mem_iff.mpr (List.mem_range.mpr hx)
      rw [← hflat] at hxs
      rcases List.mem_flatten.mp hxs with ⟨l, hl, hxl⟩
      rcases List.mem_map.mp hl with ⟨k, hk, rfl⟩
      exact ⟨k, List.mem_range.mp hk, hxl⟩
    · rintro ⟨k, hk, hxk⟩
      have hxs : x ∈ shuffled := by
        rw [← hflat]
        exact List.mem_flatten.mpr ⟨testFold shuffled n k,
          List.mem_map.mpr ⟨k, List.mem_range.mpr hk, rfl⟩, hxk⟩
      exact List.mem_range.mp (hperm.mem_iff.mp hxs)
  · intro k x
    simp [trainFold, List.mem_filter]

/-- A concrete shuffled index array: a permutation of `{0, …, 11}`. -/
def shuffledExample : List ℕ := [3, 7, 0, 11, 5, 2, 9, 1, 10, 4, 8, 6]

/-- Concrete check of `k_fold_partition` on 12 rows with an explicit shuffle. -/
theorem k_fold_partition_w :
    (∀ k1 k2, k1 < 10 → k2 < 10 → k1 ≠ k2 →
      ∀ x ∈ testFold shuffledExample 12 k1, x ∉ testFold shuffledExample 12 k2) ∧
    (∀ x, x < 12 ↔ ∃ k, k < 10 ∧ x ∈ testFold shuffledExample 12 k) ∧
    (∀ k x, x ∈ trainFold shuffledExample 12 k ↔
      x < 12 ∧ x ∉ testFold shuffledExample 12 k) :=
  k_fold_partition 12 shuffledExample (by decide) (by decide)

/-! Part 3: outlier removal (`result_lim` cell)

The recalibration notebook computes `abs_error = |k20a_rho - RHO|` on a copy
of the matched dataset, takes `q_95 = abs_error.quantile(0.95)` (pandas
default linear interpolation between order statistics) and keeps the rows
with `abs_error < q_95`. -/

/-- One row of the matched SMP/pit dataset `result` (the columns the
recalibration and evaluation cells read). -/
structure SRow where
  RHO : ℚ
  force_log : ℚ
  l : ℚ
  mean_samp : ℚ
  error : ℚ
deriving DecidableEq

/-- Absolute value, as `np.abs` computes it, on a rational value. -/
def ratAbs (x : ℚ) : ℚ := if x < 0 then -x else x

/-- The values in ascending order (pandas sorts before interpolating). -/
def sortedVals (xs : List ℚ) : List ℚ := xs.insertionSort (fun a b => a ≤ b)

/-- Index of the lower order statistic for the 0.95 quantile of `n` values:
`floor(0.95 * (n - 1))`. -/
def qIdx (n : ℕ) : ℕ := 19 * (n - 1) / 20

/-- Fractional part of `0.95 * (n - 1)`, the linear-interpolation weight. -/
def qFrac (n : ℕ) : ℚ := ((19 * (n - 1) : ℕ) : ℚ) / 20 - ((qIdx n : ℕ) : ℚ)

/-- Quantile `Series.quantile(0.95)` with pandas' default linear interpolation. -/
def quantile95 (xs : List ℚ) : ℚ :=
  let ys := sortedVals xs
  let lo := ys.getD (qIdx xs.length) 0
  let hi := ys.getD (qIdx xs.length + 1) lo
  lo + qFrac xs.length * (hi - lo)

/-- The bilinear model applied to one sample, as the notebooks write it:
`c[0] + c[1]*force_log + c[2]*force_log*l + c[3]*l`. -/
def applyCoeff (c : List ℚ) (force_log l : ℚ) : ℚ :=
  c.getD 0 0 + c.getD 1 0 * force_log + c.getD 2 0 * force_log * l + c.getD 3 0 * l

/-- Column `abs_error` of a row: `np.abs(k20a_rho - RHO)`. -/
def absError (c : List ℚ) (row : SRow) : ℚ :=
  ratAbs (applyCoeff c row.force_log row.l - row.RHO)

/-- Filtered frame `result_lim`: the rows of `result` whose `abs_error` is strictly below the
0.95 quantile of the `abs_error` column. -/
def resultLim (c : List ℚ) (result : List SRow) : List SRow :=
  let q95 := quantile95 (result.map (fun row => absError c row))
  result.filter (fun row => decide (absError c row < q95))

theorem length_filter_front_all (p : ℚ → Bool) (ys : List ℚ) (m : ℕ)
    (hm : m ≤ ys.length)
    (h : ∀ i (hi : i < ys.length), i < m → p ys[i] = true) :
    m ≤ (ys.filter p).length := by
  have hsub : ((ys.take m).filter p).Sublist (ys.filter p) :=
    (List.take_sublist m ys).filter p
  have heq : (ys.take m).filter p = ys.take m := by
    rw [List.filter_eq_self]
    intro a ha
    rw [List.mem_take_iff_getElem] at ha
    obtain ⟨i, hi, rfl⟩ := ha
    have hi2 : i < ys.length := (lt_min_iff.mp hi).2
    have hi1 : i < m := (lt_min_iff.mp hi).1
    exact h i hi2 hi1
  have hlen := hsub.length_le
  rw [heq, List.length_take] at hlen
  omega

/-- Core counting fact behind the outlier-removal bound: when the values are
pairwise distinct, strictly fewer than `⌈n/20⌉ + 1` of them sit at or above
their 0.95 linear-interpolation quantile. -/
theorem removed_le_of_nodup (xs : List ℚ) (hnd : xs.Nodup) :
    xs.length - (xs.filter (fun x => decide (x < quantile95 xs))).length
      ≤ (xs.length + 19) / 20 := by
  rcases Nat.eq_zero_or_pos xs.length with h0 | hpos
  · omega
  set n := xs.length
  set ys := sortedVals xs with hys
  have hperm : ys.Perm xs := List.perm_insertionSort _ xs
  have hlen : ys.length = n := by rw [hperm.length_eq]
  have hysnd : ys.Nodup := hperm.nodup_iff.mpr hnd
  have hsorted : List.Pairwise (fun a b => a ≤ b) ys :=
    List.sorted_insertionSort _ xs
  have hstrict : List.Pairwise (· < ·) ys := by
    have hand := List.Pairwise.and hsorted hysnd
    exact hand.imp (fun hab => lt_of_le_of_ne hab.1 hab.2)
  have hstrict' := List.pairwise_iff_getElem.mp hstrict
  set r := n - 1 with hr
  set k := qIdx n with hk
  have hkk : k = 19 * r / 20 := by rw [hk, hr]; rfl
  have hkr : k ≤ r := by omega
  have hkn : k < ys.length := by omega
  set lo := ys.getD k 0 with hlo
  have hloe : lo = ys[k] := by rw [hlo, List.getD_eq_getElem ys 0 hkn]
  set hi := ys.getD (k + 1) lo with hhi
  have hq : quantile95 xs = lo + qFrac n * (hi - lo) := rfl
  set m := n - r / 20 - 1 with hm
  have hmle : m ≤ ys.length := by omega
  -- every value among the first m order statistics is strictly below q95
  have hpre : ∀ i (hilt : i < ys.length), i < m →
      decide (ys[i] < quantile95 xs) = true := by
    intro i hilt him
    rw [decide_eq_true_eq, hq]
    rcases Nat.eq_zero_or_pos (r % 20) with hb | hb
    · -- exact case: the quantile position is an integer, q95 = ys[k]
      have hnat : 19 * r = 20 * k := by omega
      have hfrac : qFrac n = 0 := by
        have hc := congrArg (fun t : ℕ => (t : ℚ)) hnat
        push_cast at hc
        simp only [qFrac, ← hkk]
        rw [show ((19 * (n - 1) : ℕ) : ℚ) = 19 * (r : ℚ) by push_cast [← hr]; ring]
        rw [hc]
        ring
      have him' : i < k := by omega
      have : ys[i] < ys[k] := hstrict' i k hilt hkn him'
      rw [hfrac, hloe]
      linarith
    · -- interpolated case: q95 lies strictly between ys[k] and ys[k+1]
      have hk1 : k + 1 < ys.length := by omega
      have hhie : hi = ys[k + 1] := by rw [hhi, List.getD_eq_getElem ys lo hk1]
      have hlohi : lo < hi := by
        rw [hloe, hhie]
        exact hstrict' k (k + 1) hkn hk1 (Nat.lt_succ_self k)
      set s := 19 * r % 20 with hs
      have hs1 : 1 ≤ s := by omega
      have hnat : 19 * r = 20 * k + s := by omega
      have hfrac : qFrac n = (s : ℚ) / 20 := by
        have hc := congrArg (fun t : ℕ => (t : ℚ)) hnat
        push_cast at hc
        simp only [qFrac, ← hkk]
        rw [show ((19 * (n - 1) : ℕ) : ℚ) = 19 * (r : ℚ) by push_cast [← hr]; ring]
        rw [hc]
        ring
      have hfracpos : 0 < qFrac n := by
        rw [hfrac]
        positivity
      have hqgt : lo < lo + qFrac n * (hi - lo) := by nlinarith
      have him' : i ≤ k := by omega
      rcases Nat.lt_or_ge i k with hik | hik
      · have : ys[i] < ys[k] := hstrict' i k hilt hkn hik
        rw [← hloe] at this
        linarith
      · have hik' : i = k := le_antisymm him' hik
        subst hik'
        rw [← hloe]
        exact hqgt
  have hkept := length_filter_front_all
    (fun x => decide (x < quantile95 xs)) ys m hmle hpre
  have hkeq : (ys.filter (fun x => decide (x < quantile95 xs))).length
      = (xs.filter (fun x => decide (x < quantile95 xs))).length :=
    (hperm.filter _).length_eq
  omega

/-- C3 (amended).  Outlier removal never increases the dataset: `result_lim`
is a sublist (hence subset) of the input rows; and when the `abs_error`
values are pairwise distinct, the number of removed rows is at most
`⌈0.05 * n⌉` of the `n` input rows.  (With tied `abs_error` values the strict
`<` filter against the quantile can remove more — see the counterexample.) -/
theorem outlier_removal_bound (c : List ℚ) (rows : List SRow) :
    (resultLim c rows).Sublist rows ∧
    ((rows.map (fun row => absError c row)).Nodup →
      rows.length - (resultLim c rows).length ≤ (rows.length + 19) / 20) := by
  constructor
  · exact List.filter_sublist rows
  · intro hdist
    have hkey := removed_le_of_nodup (rows.map (fun row => absError c row)) hdist
    rw [List.length_map] at hkey
    have hlen1 : ((rows.map (fun row => absError c row)).filter
        (fun x => decide (x < quantile95 (rows.map (fun row => absError c row))))).length
        = (resultLim c rows).length := by
      rw [List.filter_map, List.length_map]
      rfl
    rw [hlen1] at hkey
    exact hkey

/-- Two matched rows whose `abs_error` values tie (both 5). -/
def rowsCex : List SRow := [⟨5, 0, 0, 0, 0⟩, ⟨5, 0, 0, 0, 0⟩]

/-- Zero coefficients, making `abs_error = RHO` for the rows above. -/
def coeffCex : List ℚ := [0, 0, 0, 0]

/-- C3 counterexample.  With two rows of equal `abs_error`, the 0.95 quantile
equals that common value, the strict `<` filter removes *both* rows, and
`2 > ⌈0.05 * 2⌉ = 1`: the claimed removal bound fails as stated. -/
theorem outlier_removal_bound_cex :
    ¬ ((resultLim coeffCex rowsCex).Sublist rowsCex ∧
       rowsCex.length - (resultLim coeffCex rowsCex).length
         ≤ (rowsCex.length + 19) / 20) := by
  intro h
  have he : resultLim coeffCex rowsCex = [] := by
    norm_num [resultLim, quantile95, sortedVals, qIdx, qFrac, absError, applyCoeff,
      ratAbs, rowsCex, coeffCex, List.insertionSort, List.orderedInsert]
  have h2 := h.2
  rw [he] at h2
  simp [rowsCex] at h2

/-- Three rows with pairwise distinct `abs_error` values (1, 2, 3). -/
def rowsW : List SRow := [⟨1, 0, 0, 0, 0⟩, ⟨2, 0, 0, 0, 0⟩, ⟨3, 0, 0, 0, 0⟩]

/-- Concrete check of `outlier_removal_bound` on three rows with distinct
`abs_error` values: at most `⌈0.15⌉ = 1` row is removed. -/
theorem outlier_removal_bound_w :
    (resultLim coeffCex rowsW).Sublist rowsW ∧
    rowsW.length - (resultLim coeffCex rowsW).length ≤ (rowsW.length + 19) / 20 :=
  ⟨(outlier_removal_bound coeffCex rowsW).1,
   (outlier_removal_bound coeffCex rowsW).2 (by
     norm_num [absError, applyCoeff, ratAbs, rowsW, coeffCex])⟩

/-! Part 4: the recalibrated coefficients

`ols("RHO ~ force_log + force_log * l", train).fit()` produces a parameter
vector in the design-matrix order patsy assigns to that formula: column 0
the intercept, column 1 the `force_log` coefficient, column 2 the `l`
(microstructure length) coefficient, column 3 the `force_log:l` interaction
coefficient.  The persistence cell builds

  `model_k20a_coeff = [round(mean(params[:,0]),2), round(mean(params[:,1]),2),
                       round(mean(params[:,3]),2), round(mean(params[:,2]),2)]`

and the application cells read `coeff[2]` as the interaction coefficient and
`coeff[3]` as the length coefficient. -/

/-- The intercept entry of a per-fold OLS parameter vector (design column 0). -/
def interceptTerm (p : Fin 4 → ℚ) : ℚ := p 0

/-- The `force_log` coefficient (design column 1). -/
def forceTerm (p : Fin 4 → ℚ) : ℚ := p 1

/-- The `l` (microstructure length) coefficient (design column 2). -/
def lengthTerm (p : Fin 4 → ℚ) : ℚ := p 2

/-- The `force_log:l` interaction coefficient (design column 3). -/
def interactionTerm (p : Fin 4 → ℚ) : ℚ := p 3

/-- Column `i` of the stacked per-fold parameter matrix `params`. -/
def paramCol (ps : List (Fin 4 → ℚ)) (i : Fin 4) : List ℚ :=
  ps.map (fun p => p i)

/-- Mean (`np.mean`) of a list of rationals. -/
def listMean (xs : List ℚ) : ℚ := xs.sum / (xs.length : ℚ)

/-- Rounding `np.round(x)` to the nearest integer, ties to even (IEEE half-even, the
rule NumPy documents and implements). -/
def roundHalfEven (x : ℚ) : ℤ :=
  if x - ⌊x⌋ < 1/2 then ⌊x⌋
  else if (1 : ℚ)/2 < x - ⌊x⌋ then ⌊x⌋ + 1
  else if Even ⌊x⌋ then ⌊x⌋ else ⌊x⌋ + 1

/-- Rounding `np.round(x, 2)` to 2 decimal places. -/
def round2 (x : ℚ) : ℚ := (roundHalfEven (100 * x) : ℚ) / 100

/-- The persisted coefficient list `model_k20a_coeff` / `model_k20b_coeff`:
rounded column means of the stacked per-fold parameters, in source order
`[col 0, col 1, col 3, col 2]`. -/
def modelCoeff (ps : List (Fin 4 → ℚ)) : List ℚ :=
  [round2 (listMean (paramCol ps 0)), round2 (listMean (paramCol ps 1)),
   round2 (listMean (paramCol ps 3)), round2 (listMean (paramCol ps 2))]

/-- A single-fold parameter matrix whose length and interaction column means
differ (length coefficient 10, interaction coefficient 20). -/
def paramsCex : List (Fin 4 → ℚ) := [![0, 0, 10, 20]]

/-- C4 counterexample.  The persisted vector is *not* in the claimed order
(intercept, force, length, interaction): at a fold-parameter matrix whose
length column has mean 10 and interaction column mean 20, the persisted
vector is `[0, 0, 20, 10]`, not `[0, 0, 10, 20]` — entries 2 and 3 hold the
interaction and length terms respectively. -/
theorem model_coeff_order_cex :
    modelCoeff paramsCex ≠
      [round2 (listMean (paramCol paramsCex 0)),
       round2 (listMean (paramCol paramsCex 1)),
       round2 (listMean (paramCol paramsCex 2)),
       round2 (listMean (paramCol paramsCex 3))] := by
  norm_num [modelCoeff, paramsCex, paramCol, listMean, round2, roundHalfEven]

/-- C4 (amended).  The persisted recalibrated-coefficient value is a
fixed-length numeric vector of exactly 4 entries, in the order (intercept,
force term, interaction term, length term). -/
theorem model_coeff_order (ps : List (Fin 4 → ℚ)) :
    (modelCoeff ps).length = 4 ∧
    modelCoeff ps =
      [round2 (listMean (ps.map interceptTerm)),
       round2 (listMean (ps.map forceTerm)),
       round2 (listMean (ps.map interactionTerm)),
       round2 (listMean (ps.map lengthTerm))] :=
  ⟨rfl, rfl⟩

/-- The parameter rows accumulated by the K-fold loop (`params` after the
loop: one `model_rho.params.values` row per fold, stacked in order). -/
def foldParams {D : Type} (folds : List D) (fit : D → Fin 4 → ℚ) :
    List (Fin 4 → ℚ) :=
  folds.map fit

/-- C6.  Recalibration refits the regression once per fold and persists, for
each coefficient, the 2-decimal rounding of the mean over *all* folds of the
corresponding per-fold OLS parameter: the stacked matrix has one row per
fold, and each persisted entry is `round(sum of that parameter over every
fold / number of folds, 2)` — a function of the completed loop's output. -/
theorem model_coeff_mean_folds {D : Type} (folds : List D) (fit : D → Fin 4 → ℚ) :
    (foldParams folds fit).length = folds.length ∧
    modelCoeff (foldParams folds fit) =
      [round2 ((folds.map (fun d => interceptTerm (fit d))).sum / (folds.length : ℚ)),
       round2 ((folds.map (fun d => forceTerm (fit d))).sum / (folds.length : ℚ)),
       round2 ((folds.map (fun d => interactionTerm (fit d))).sum / (folds.length : ℚ)),
       round2 ((folds.map (fun d => lengthTerm (fit d))).sum / (folds.length : ℚ))] := by
  constructor
  · exact List.length_map folds fit
  · simp only [modelCoeff, foldParams, paramCol, listMean, List.map_map,
      List.length_map, interceptTerm, forceTerm, lengthTerm, interactionTerm]
    rfl

/-! Part 5: applying the bilinear density model (`density_k2020`, `k20a_rho`) -/

/-- The density estimate cell of `Annex_Matching`:
`coeffs[0] + coeffs[1]*np.log(F) + coeffs[2]*np.log(F)*L + coeffs[3]*L`,
with the logarithm carried as an abstract function parameter. -/
def density_k2020 (ln : ℚ → ℚ) (c : List ℚ) (F L : ℚ) : ℚ :=
  c.getD 0 0 + c.getD 1 0 * ln F + c.getD 2 0 * ln F * L + c.getD 3 0 * L

/-- C5.  For every SMP sample with median force `F` and length scale `L`, the
density estimate produced by applying a coefficient vector `c` equals the
bilinear expression `c[0] + c[1]*ln(F) + c[2]*ln(F)*L + c[3]*L`; the
recalibration notebook's `k20a_rho` cell (`applyCoeff` on the pre-computed
`force_log` column) computes the same value. -/
theorem density_k2020_bilinear (ln : ℚ → ℚ) (c0 c1 c2 c3 F L : ℚ) :
    density_k2020 ln [c0, c1, c2, c3] F L
        = c0 + c1 * ln F + c2 * (ln F * L) + c3 * L ∧
    applyCoeff [c0, c1, c2, c3] (ln F) L = density_k2020 ln [c0, c1, c2, c3] F L := by
  constructor
  · simp [density_k2020, List.getD]
    ring
  · simp [applyCoeff, density_k2020]

/-! Part 6: error propagation

No cell of either notebook contains a `try`/`except` (or any retry loop):
a raised exception in loading, fitting or scoring terminates the cell.  The
cell sequence is embedded as plain sequencing of fallible stages: a stage's
error is returned unchanged, and no alternative result exists. -/

/-- The notebook cell sequence: load the SMP profiles, fit the regression,
score the alignment.  Each stage may raise (return `.error`); the sequence
installs no handler — an error short-circuits the rest. -/
def pipeline {E A B C : Type} (load : Except E A) (fit : A → Except E B)
    (score : B → Except E C) : Except E C :=
  match load with
  | .error e => .error e
  | .ok a =>
    match fit a with
    | .error e => .error e
    | .ok b => score b

/-- C8.  No operation catches, recovers from, or retries on an error: if any
stage (file loading, regression fitting, alignment scoring) raises, the
exception propagates unchanged to the caller and no alternative result is
produced — the pipeline's value is exactly that error. -/
theorem pipeline_propagates {E A B C : Type} (load : Except E A)
    (fit : A → Except E B) (score : B → Except E C) (e : E) :
    (load = .error e → pipeline load fit score = .error e) ∧
    (∀ a, load = .ok a → fit a = .error e → pipeline load fit score = .error e) ∧
    (∀ a b, load = .ok a → fit a = .ok b → score b = .error e →
      pipeline load fit score = .error e) := by
  refine ⟨?_, ?_, ?_⟩
  · intro h
    subst h
    rfl
  · intro a ha hf
    subst ha
    simp only [pipeline.eq_def, hf]
  · intro a b ha hf hs
    subst ha
    simp only [pipeline.eq_def, hf]
    exact hs

/-- Concrete check of `pipeline_propagates`: a load failure (error code 2),
a fit failure (error code 3) and a scoring failure (error code 5) each
surface unchanged as the pipeline's result. -/
theorem pipeline_propagates_w :
    pipeline (Except.error 2 : Except ℕ ℕ)
        (fun a => Except.ok (a + 1)) (fun b => Except.ok (b * 2))
      = Except.error 2 ∧
    pipeline (Except.ok 7 : Except ℕ ℕ)
        (fun _ => (Except.error 3 : Except ℕ ℕ)) (fun b => Except.ok (b * 2))
      = Except.error 3 ∧
    pipeline (Except.ok 7 : Except ℕ ℕ)
        (fun a => Except.ok (a + 1)) (fun _ => (Except.error 5 : Except ℕ ℕ))
      = Except.error 5 :=
  ⟨(pipeline_propagates (Except.error 2) (fun a => Except.ok (a + 1))
      (fun b => Except.ok (b * 2)) 2).1 rfl,
   (pipeline_propagates (Except.ok 7) (fun _ => (Except.error 3 : Except ℕ ℕ))
      (fun b => Except.ok (b * 2)) 3).2.1 7 rfl rfl,
   (pipeline_propagates (Except.ok 7) (fun a => Except.ok (a + 1))
      (fun _ => (Except.error 5 : Except ℕ ℕ)) 5).2.2 7 8 rfl rfl rfl⟩

/-! Part 7: determinism of the seeded pipeline

`Annex_Matching` executes `np.random.seed(2019)` at import time and the
recalibration notebook passes `random_state = RANDOM_SEED` (2019) to
`KFold`; no other entropy source is consulted.  A run is modelled as a
function of the ambient entropy the runtime could otherwise supply; seeding
with the constant makes every pseudo-random draw a pure function of 2019. -/

/-- The fixed seed both notebooks use. -/
def RANDOM_SEED : ℕ := 2019

/-- Deterministic model of one generator step (linear congruential). -/
def lcgNext (s : ℕ) : ℕ := (1103515245 * s + 12345) % 2 ^ 31

/-- The stream of draws a generator seeded with `s` produces. -/
def prngStream : ℕ → ℕ → List ℕ
  | _, 0 => []
  | s, k + 1 => lcgNext s :: prngStream (lcgNext s) k

/-- The shuffled index order `KFold(shuffle=True, random_state=seed)` uses:
a permutation of `arange(n)` determined purely by the seed. -/
def seededShuffle (seed n : ℕ) : List ℕ :=
  (List.range n).rotate (lcgNext seed)

/-- Everything one run of the pipeline produces that the spec calls out:
the fold splits, the sampled stretch candidates, the selected candidate and
the persisted coefficient vector. -/
structure RunResult where
  testFolds : List (List ℕ)
  stretchDraws : List ℕ
  selectedSkill : Option Skill
  coeffs : List ℚ
deriving DecidableEq

/-- One full run over `n` matched rows with `numTests` stretch samples.
`skillOf` scores a sampled candidate and `fit` runs OLS on a training set —
both deterministic functions of the input data.  `entropy` stands for the
ambient nondeterminism a run could observe; because both generators are
seeded with the constant `RANDOM_SEED`, it is never consulted. -/
def runPipeline (entropy n numTests : ℕ) (skillOf : ℕ → Skill)
    (fit : List ℕ → Fin 4 → ℚ) : RunResult :=
  let shuffled := seededShuffle RANDOM_SEED n
  { testFolds := (List.range 10).map (fun k => testFold shuffled n k)
    stretchDraws := prngStream RANDOM_SEED numTests
    selectedSkill := minScaling ((prngStream RANDOM_SEED numTests).map skillOf)
    coeffs := modelCoeff ((List.range 10).map (fun k => fit (trainFold shuffled n k))) }

/-- C9.  The pipeline is deterministic across runs: with the pseudo-random
sources seeded by the fixed constant 2019, two runs on the same input data —
whatever ambient entropy they observe — produce identical fold splits,
identical sampled stretch candidates, the same selected candidate, and
identical persisted coefficient vectors. -/
theorem run_pipeline_deterministic (e1 e2 n numTests : ℕ) (skillOf : ℕ → Skill)
    (fit : List ℕ → Fin 4 → ℚ) :
    runPipeline e1 n numTests skillOf fit = runPipeline e2 n numTests skillOf fit ∧
    (runPipeline e1 n numTests skillOf fit).testFolds
      = (runPipeline e2 n numTests skillOf fit).testFolds ∧
    (runPipeline e1 n numTests skillOf fit).stretchDraws
      = (runPipeline e2 n numTests skillOf fit).stretchDraws ∧
    (runPipeline e1 n numTests skillOf fit).selectedSkill
      = (runPipeline e2 n numTests skillOf fit).selectedSkill ∧
    (runPipeline e1 n numTests skillOf fit).coeffs
      = (runPipeline e2 n numTests skillOf fit).coeffs :=
  ⟨rfl, rfl, rfl, rfl, rfl⟩

/-! Part 8: outlier removal operates on a copy (`result_lim = result.copy()`)

Dataframes live on a heap of mutable cells; `result` and `result_lim` are
references.  `.copy()` allocates a fresh cell holding the same value, so the
cell's subsequent column assignments and filtering write only to the new
reference. -/

/-- A dataframe: the matched rows plus the two columns the outlier cell
assigns (`f_l`, `abs_error`), empty until assigned. -/
structure DF where
  rows : List SRow
  f_l : List ℚ
  abs_error : List ℚ
deriving DecidableEq

/-- The heap of dataframe values; references are indices. -/
abbrev Heap : Type := List DF

/-- Dereference (out-of-range reads return an empty frame). -/
def readDF (h : Heap) (r : ℕ) : DF := List.getD h r ⟨[], [], []⟩

/-- Overwrite the cell `r` points to. -/
def writeDF (h : Heap) (r : ℕ) (d : DF) : Heap := List.set h r d

/-- Copy step `.copy()`: allocate a fresh cell holding the current value of `r`. -/
def copyDF (h : Heap) (r : ℕ) : Heap × ℕ := (h ++ [readDF h r], h.length)

/-- The outlier-removal cell: copy `result`, assign the `f_l` and
`abs_error` columns on the copy, then filter the copy by
`abs_error < q_95`.  Returns the heap and the `result_lim` reference. -/
def outlierCell (c : List ℚ) (h : Heap) (resultRef : ℕ) : Heap × ℕ :=
  let limRef := (copyDF h resultRef).2
  let h1 := (copyDF h resultRef).1
  let h2 := writeDF h1 limRef
    { readDF h1 limRef with
      f_l := (readDF h1 limRef).rows.map (fun row => row.l * row.force_log) }
  let h3 := writeDF h2 limRef
    { readDF h2 limRef with
      abs_error := (readDF h2 limRef).rows.map (fun row => absError c row) }
  let q95 := quantile95 (readDF h3 limRef).abs_error
  let keptRows := (readDF h3 limRef).rows.filter (fun row => decide (absError c row < q95))
  let h4 := writeDF h3 limRef
    { rows := keptRows
      f_l := keptRows.map (fun row => row.l * row.force_log)
      abs_error := keptRows.map (fun row => absError c row) }
  (h4, limRef)

/-- The P15 evaluation statistics of Figure 4 (`p2015_rmse` squared — the
mean squared error under the square root — and `p2015_bias`), computed from
a frame's rows. -/
def p2015_mse (rows : List SRow) : ℚ :=
  listMean (rows.map (fun row => (row.mean_samp - row.RHO) ^ 2))

/-- Statistic `p2015_bias`: the mean of the `error` column. -/
def p2015_bias (rows : List SRow) : ℚ :=
  listMean (rows.map (fun row => row.error))

theorem readDF_writeDF_ne (h : Heap) (r1 r2 : ℕ) (d : DF) (hne : r1 ≠ r2) :
    readDF (writeDF h r2 d) r1 = readDF h r1 := by
  simp [readDF, writeDF, List.getD_eq_getElem?_getD, List.getElem?_set_ne (Ne.symm hne)]

theorem readDF_append (h : Heap) (d : DF) (r : ℕ) (hlt : r < h.length) :
    readDF (h ++ [d]) r = readDF h r := by
  simp only [readDF]
  exact List.getD_append h [d] ⟨[], [], []⟩ r hlt

/-- C10.  Outlier removal leaves the original matched dataset unchanged: it
operates on a copy, so after the filtering cell the frame `result` points to
is identical to its value before, the returned `result_lim` reference is a
different cell, and the later P15 evaluation statistics — computed from
`result` — equal the statistics of the full unfiltered dataset. -/
theorem outlier_cell_frame (c : List ℚ) (h : Heap) (resultRef : ℕ)
    (hvalid : resultRef < h.length) :
    readDF (outlierCell c h resultRef).1 resultRef = readDF h resultRef ∧
    (outlierCell c h resultRef).2 ≠ resultRef ∧
    p2015_mse (readDF (outlierCell c h resultRef).1 resultRef).rows
      = p2015_mse (readDF h resultRef).rows ∧
    p2015_bias (readDF (outlierCell c h resultRef).1 resultRef).rows
      = p2015_bias (readDF h resultRef).rows := by
  have hne : resultRef ≠ h.length := Nat.ne_of_lt hvalid
  have hfst : readDF (outlierCell c h resultRef).1 resultRef = readDF h resultRef := by
    show readDF (writeDF _ (copyDF h resultRef).2 _) resultRef = readDF h resultRef
    simp only [copyDF]
    rw [readDF_writeDF_ne _ _ _ _ hne, readDF_writeDF_ne _ _ _ _ hne,
      readDF_writeDF_ne _ _ _ _ hne]
    exact readDF_append h (readDF h resultRef) resultRef hvalid
  refine ⟨hfst, ?_, ?_, ?_⟩
  · show (copyDF h resultRef).2 ≠ resultRef
    exact Ne.symm hne
  · rw [hfst]
  · rw [hfst]

/-- A one-frame heap holding three matched rows. -/
def heapW : Heap := [⟨rowsW, [], []⟩]

/-- Concrete check of `outlier_cell_frame` on a one-frame heap. -/
theorem outlier_cell_frame_w :
    readDF (outlierCell coeffCex heapW 0).1 0 = readDF heapW 0 ∧
    (outlierCell coeffCex heapW 0).2 ≠ 0 ∧
    p2015_mse (readDF (outlierCell coeffCex heapW 0).1 0).rows
      = p2015_mse (readDF heapW 0).rows ∧
    p2015_bias (readDF (outlierCell coeffCex heapW 0).1 0).rows
      = p2015_bias (readDF heapW 0).rows :=
  outlier_cell_frame coeffCex heapW 0 (by decide)

end SMPSeaIce
